import Mathlib

/-!
Verification development for the newton lexer (`src/newton_lex.rs`).

The source file defines four components: `Span` (a half-open offset range),
`Token` (kind, literal body, span), the token-kind enumeration (`Type` in the
source), and `Lexer` (single-cursor whole-buffer scanner `Lexer::lexeme` with
sub-scanners `digest_ident`, `digest_literal`, `digest_number`,
`digest_access`, `digest_comment`).

Embedding conventions:
- A Rust `String` used as the scanner buffer is modelled as `List Char`
  (Unicode scalar values), because the scanner addresses the buffer with
  `self.buffer.chars().nth(pos)`, i.e. by character index.
- The mutable cursor is explicit position passing; each sub-scanner takes the
  buffer and the current position and returns its result together with the
  position it left the cursor at.
- Rust `panic!` calls are modelled as `Except.error` with the error taxonomy
  named by the specification (`UnterminatedString`, `InvalidNumberCharacter`,
  `UnrecognizedCharacter`, `MissingSecondColon`).
- The main scanning loop is modelled with a fuel parameter (the loop advances
  the cursor by at least one position per iteration, so `buffer.length + 1`
  fuel always suffices; `lexLoop_fuel_irrelevant` below proves the fuel choice
  does not matter).
- Rust's Unicode character classes `is_alphanumeric`, `is_alphabetic` and
  `is_numeric` are modelled on their ASCII fragments (the dispatch arm for
  identifiers in the source is already the ASCII ranges `'a'..='z' | 'A'..='Z'
  | '_'`); `char::is_whitespace` is modelled by the full Unicode White_Space
  list it tests.
-/

/-- Token-kind catalog (source enum `Type`; renamed because `Type` is a Lean
universe). -/
inductive TokenType where
  | Ident
  | ReservedKeyword
  | String
  | Number
  | OpenParen
  | CloseParen
  | OpenBrace
  | CloseBrace
  | MemberAccess
  | Colon
  | SemiColon
  | Comma
  | Dot
  | Equal
  | Greater
  | Less
  | Plus
  | Minus
  | Multiply
  | Divide
  | Modulo
  deriving DecidableEq

/-- Source struct `Span { start, end }`; the field `end` is a Lean keyword and
is named `stop` here. Offsets are `usize` in the source, `Nat` here. -/
structure Span where
  start : Nat
  stop : Nat
  deriving DecidableEq

/-- Source `Span::len`: `self.end - self.start` (for the spans the claims
quantify over, `start <= stop`, where Rust and Nat subtraction agree). -/
def Span.len (s : Span) : Nat :=
  s.stop - s.start

/-- Source `Span::is_empty`: `self.len() == 0`. -/
def Span.is_empty (s : Span) : Bool :=
  s.len == 0

/-- Source `Span::perfect`: `self.start <= self.end`. -/
def Span.perfect (s : Span) : Bool :=
  decide (s.start ≤ s.stop)

/-- Source `Span::backward`: `self.start > self.end`. -/
def Span.backward (s : Span) : Bool :=
  decide (s.stop < s.start)

/-- Source `Span::forward`: `self.start < self.end`. -/
def Span.forward (s : Span) : Bool :=
  decide (s.start < s.stop)

/-- Source struct `Token { ty, body, span }`; the body is the literal scanned
text, kept as a character list. -/
structure Token where
  ty : TokenType
  body : List Char
  span : Span
  deriving DecidableEq

/-- The lexical failure taxonomy; each corresponds to one `panic!` site of the
source scanner. -/
inductive LexError where
  | unterminatedString
  | invalidNumberCharacter
  | unrecognizedCharacter
  | missingSecondColon
  deriving DecidableEq

/-- The ASCII letter ranges `'a'..='z' | 'A'..='Z'` of the identifier dispatch
arm in `Lexer::lexeme` (stated on code points: 97-122 and 65-90). -/
def isAsciiLetter (c : Char) : Bool :=
  decide ((97 ≤ c.toNat ∧ c.toNat ≤ 122) ∨ (65 ≤ c.toNat ∧ c.toNat ≤ 90))

/-- Rust `char::is_numeric` restricted to the ASCII decimal digits 0-9 (code
points 48-57); the full Rust class also contains non-ASCII numerics, every one
of which `digest_number` immediately rejects, so the restriction only shrinks
the modelled input alphabet. -/
def isNumeric (c : Char) : Bool :=
  decide (48 ≤ c.toNat ∧ c.toNat ≤ 57)

/-- Rust `char::is_alphanumeric` restricted to ASCII, as used by the
`digest_ident` loop guard `ch.is_alphanumeric()`. -/
def isAlphanumeric (c : Char) : Bool :=
  isAsciiLetter c || isNumeric c

/-- Rust `char::is_alphabetic` restricted to ASCII, as used by the
`digest_access` lookahead. -/
def isAlphabetic (c : Char) : Bool :=
  isAsciiLetter c

/-- Rust `char::is_whitespace`: membership in the Unicode White_Space code
point list. -/
def rustIsWhitespace (c : Char) : Bool :=
  decide (c.toNat ∈ [9, 10, 11, 12, 13, 32, 133, 160, 5760, 8192, 8193, 8194,
    8195, 8196, 8197, 8198, 8199, 8200, 8201, 8202, 8232, 8233, 8239, 8287,
    12288])

/-- The `'0'..='9' | '.' | '_'` arm of the `digest_number` loop. -/
def isNumberChar (c : Char) : Bool :=
  decide ((48 ≤ c.toNat ∧ c.toNat ≤ 57) ∨ c = '.' ∨ c = '_')

/-- The reserved-word check of `digest_ident`: `new`, `conditions`, `logic`
yield `ReservedKeyword`, anything else `Ident`. -/
def reservedOrIdent (ident : List Char) : TokenType :=
  if ident = ['n', 'e', 'w'] ∨ ident = ['c', 'o', 'n', 'd', 'i', 't', 'i', 'o', 'n', 's'] ∨
      ident = ['l', 'o', 'g', 'i', 'c'] then
    TokenType.ReservedKeyword
  else
    TokenType.Ident

/-- The consuming loop of `Lexer::digest_ident`: `cs` is the buffer suffix
starting at the current cursor position `p`; consumes alphanumerics and
underscores, returning the consumed run and the final cursor position. -/
def digestIdentGo : List Char → Nat → List Char → List Char × Nat
  | [], p, acc => (acc, p)
  | c :: rest, p, acc =>
    if isAlphanumeric c ∨ c = '_' then digestIdentGo rest (p + 1) (acc ++ [c])
    else (acc, p)

/-- Source `Lexer::digest_ident`, entered with the cursor on the triggering
character; always returns `some` token whose span runs from the trigger to the
first non-matching position. -/
def digest_ident (buf : List Char) (pos : Nat) : Option Token × Nat :=
  let r := digestIdentGo (buf.drop pos) pos []
  (some ⟨reservedOrIdent r.1, r.1, ⟨pos, r.2⟩⟩, r.2)

/-- The consuming loop of `Lexer::digest_literal`: `cs` is the buffer suffix
starting at position `p` (the loop reads via `self.next()`, so the first list
element is the character after the opening quote); `acc` starts as the opening
quote already pushed, `escaped` is the one-step escape flag. On the unescaped
closing quote the source does `self.pos += 1` past it and returns the token.
Running out of characters is the `unterminated string` panic. -/
def digestLiteralGo (start : Nat) : List Char → Nat → List Char → Bool →
    Except LexError (Option Token × Nat)
  | [], _, _, _ => .error .unterminatedString
  | c :: rest, p, acc, escaped =>
    if c = '"' ∧ escaped = false then
      .ok (some ⟨TokenType.String, acc ++ ['"'], ⟨start, p + 1⟩⟩, p + 1)
    else if c = '\\' ∧ escaped = false then
      digestLiteralGo start rest (p + 1) acc true
    else
      match escaped with
      | true => digestLiteralGo start rest (p + 1) (acc ++ [if c = 'n' then '\n' else c]) false
      | false => digestLiteralGo start rest (p + 1) (acc ++ [c]) false

/-- Source `Lexer::digest_literal`, entered with the cursor on the opening
quote at `pos`. -/
def digest_literal (buf : List Char) (pos : Nat) : Except LexError (Option Token × Nat) :=
  digestLiteralGo pos (buf.drop (pos + 1)) (pos + 1) ['"'] false

/-- The consuming loop of `Lexer::digest_number`: consumes digits, `.` and `_`
until the buffer is exhausted; any other character is the
`invalid character in number` panic. -/
def digestNumberGo (start : Nat) : List Char → Nat → List Char →
    Except LexError (Option Token × Nat)
  | [], p, acc => .ok (some ⟨TokenType.Number, acc, ⟨start, p⟩⟩, p)
  | c :: rest, p, acc =>
    if isNumberChar c then digestNumberGo start rest (p + 1) (acc ++ [c])
    else .error .invalidNumberCharacter

/-- Source `Lexer::digest_number`, entered with the cursor on the triggering
digit at `pos`. -/
def digest_number (buf : List Char) (pos : Nat) : Except LexError (Option Token × Nat) :=
  digestNumberGo pos (buf.drop pos) pos []

/-- Source `Lexer::digest_access`, entered with the cursor on the first `:` at
`pos`. `self.next()` must find a second `:` (else the `expected second colon`
panic); then `self.peek().is_some() && self.next().unwrap().is_alphabetic()`
short-circuits: with no lookahead character the cursor stays at `pos + 1` and
`none` is returned; with a non-alphabetic lookahead the cursor moves to
`pos + 2` and `none` is returned; with an alphabetic lookahead the
`MemberAccess` token spanning both colons is returned with the cursor at
`pos + 2`. -/
def digest_access (buf : List Char) (pos : Nat) : Except LexError (Option Token × Nat) :=
  match buf.get? (pos + 1) with
  | some c1 =>
    if c1 = ':' then
      match buf.get? (pos + 2) with
      | some c2 =>
        if isAlphabetic c2 then
          .ok (some ⟨TokenType.MemberAccess, [':', ':'], ⟨pos, pos + 2⟩⟩, pos + 2)
        else .ok (none, pos + 2)
      | none => .ok (none, pos + 1)
    else .error .missingSecondColon
  | none => .error .missingSecondColon

/-- The consuming loop of `Lexer::digest_comment`: advances until a newline
(left under the cursor) or the end of the buffer. -/
def digestCommentGo : List Char → Nat → Nat
  | [], p => p
  | c :: rest, p => if c = '\n' then p else digestCommentGo rest (p + 1)

/-- Source `Lexer::digest_comment`, entered with the cursor on the `;`. -/
def digest_comment (buf : List Char) (pos : Nat) : Nat :=
  digestCommentGo (buf.drop pos) pos

/-- The body of one iteration of the `while let Some(ch) = self.next()` loop
of `Lexer::lexeme`, dispatching on the character `ch` read at position `pos`;
`recur` is the rest of the loop (the next iteration, entered at the position
it is given). Dispatch order and cursor movement follow the source match arm
for arm; the brace characters are written by code point (123 is an opening
brace, 125 a closing brace). -/
def lexDispatch (buf : List Char) (pos : Nat) (ch : Char)
    (recur : Nat → Except LexError (List (Option Token))) :
    Except LexError (List (Option Token)) :=
  if rustIsWhitespace ch then recur (pos + 1)
  else if isAsciiLetter ch ∨ ch = '_' then
    match recur ((digest_ident buf pos).2 + 1) with
    | .error e => .error e
    | .ok rest => .ok ((digest_ident buf pos).1 :: rest)
  else if ch = '"' then
    match digest_literal buf pos with
    | .error e => .error e
    | .ok (literalSub, p) =>
      match recur (p + 1) with
      | .error e => .error e
      | .ok rest => .ok (literalSub :: rest)
  else if isNumeric ch then
    match digest_number buf pos with
    | .error e => .error e
    | .ok (number, p) =>
      if number.isNone = true then .error .invalidNumberCharacter
      else
        match recur (p + 1) with
        | .error e => .error e
        | .ok rest => .ok (number :: rest)
  else if ch = '(' then
    match recur (pos + 1) with
    | .error e => .error e
    | .ok rest => .ok (some ⟨TokenType.OpenParen, [ch], ⟨pos, pos⟩⟩ :: rest)
  else if ch = ')' then
    match recur (pos + 1) with
    | .error e => .error e
    | .ok rest => .ok (some ⟨TokenType.CloseParen, [ch], ⟨pos, pos⟩⟩ :: rest)
  else if ch = Char.ofNat 123 then
    match recur (pos + 1) with
    | .error e => .error e
    | .ok rest => .ok (some ⟨TokenType.OpenBrace, [ch], ⟨pos, pos⟩⟩ :: rest)
  else if ch = Char.ofNat 125 then
    match recur (pos + 1) with
    | .error e => .error e
    | .ok rest => .ok (some ⟨TokenType.CloseBrace, [ch], ⟨pos, pos⟩⟩ :: rest)
  else if ch = ':' then
    match digest_access buf pos with
    | .error e => .error e
    | .ok (isAccess, p1) =>
      if isAccess.isNone = false then
        match recur ((digest_ident buf p1).2 + 1) with
        | .error e => .error e
        | .ok rest => .ok (isAccess :: (digest_ident buf p1).1 :: rest)
      else recur ((digest_ident buf p1).2 + 1)
  else if ch = ';' then recur (digest_comment buf pos + 1)
  else .error .unrecognizedCharacter

/-- The `while let Some(ch) = self.next()` loop of `Lexer::lexeme`, with `pos`
the position `next()` is about to read and an explicit fuel bound on the
number of iterations (each iteration strictly advances the reading position,
so `buf.length + 1` fuel is always enough; see `lexLoop_fuel_irrelevant`). -/
def lexLoop (buf : List Char) : Nat → Nat → Except LexError (List (Option Token))
  | 0, _ => .ok []
  | fuel + 1, pos =>
    match buf.get? pos with
    | none => .ok []
    | some ch => lexDispatch buf pos ch (lexLoop buf fuel)

/-- Source `Lexer::lexeme`: the whole-buffer scan, starting with the cursor
one position before the first character (so the first `next()` reads position
0), returning the pushed `Vec<Option<Token>>` or the single fatal error. -/
def lexeme (buf : List Char) : Except LexError (List (Option Token)) :=
  lexLoop buf (buf.length + 1) 0

/-- One walk of Rust byte-range slicing `&string[a..b]` over the UTF-8 bytes
of the character list: `a` and `b` are the remaining byte offsets to the slice
bounds. The slice succeeds (returning the covered characters) only when both
offsets land exactly on character boundaries inside the string; an offset
beyond the encoded length or inside a multi-byte character is a panic,
modelled as `none`. -/
def byteSliceGo : List Char → Nat → Nat → Option (List Char)
  | _, 0, 0 => some []
  | [], 0, _ + 1 => none
  | [], _ + 1, _ => none
  | c :: rest, 0, b + 1 =>
    if c.utf8Size ≤ b + 1 then (byteSliceGo rest 0 (b + 1 - c.utf8Size)).map (fun l => c :: l)
    else none
  | c :: rest, a + 1, b =>
    if c.utf8Size ≤ a + 1 then byteSliceGo rest (a + 1 - c.utf8Size) (b - c.utf8Size)
    else none

/-- Source `Span::slice_and_dice`: `string[self.start..self.end].to_owned()`.
Rust `String` range indexing is by byte offset into the UTF-8 encoding and
panics (modelled as `none`) when the range is inverted, extends past the end,
or cuts a multi-byte character. -/
def Span.slice_and_dice (s : Span) (string : List Char) : Option (List Char) :=
  if s.start ≤ s.stop then byteSliceGo string s.start s.stop else none

/-- Modelled from the spec's words, for comparison with
`Span.slice_and_dice`: extraction under character-offset semantics, returning
exactly `text[start:end]` (0-indexed, end-exclusive, offsets counting Unicode
scalar values), with out-of-range extraction a bounds error rather than
silently clamped. -/
def extract_char_semantics (s : Span) (text : List Char) : Option (List Char) :=
  if s.start ≤ s.stop ∧ s.stop ≤ text.length then
    some ((text.drop s.start).take (s.stop - s.start))
  else none

/-- The token kinds the scanning algorithm actually constructs. -/
def constructedKind (t : TokenType) : Prop :=
  t = TokenType.Ident ∨ t = TokenType.ReservedKeyword ∨ t = TokenType.String ∨
    t = TokenType.Number ∨ t = TokenType.OpenParen ∨ t = TokenType.CloseParen ∨
    t = TokenType.OpenBrace ∨ t = TokenType.CloseBrace ∨ t = TokenType.MemberAccess

instance (t : TokenType) : Decidable (constructedKind t) := by
  unfold constructedKind
  infer_instance

/-- The four single-character punctuation kinds. -/
def punctKind (t : TokenType) : Prop :=
  t = TokenType.OpenParen ∨ t = TokenType.CloseParen ∨ t = TokenType.OpenBrace ∨
    t = TokenType.CloseBrace

instance (t : TokenType) : Decidable (punctKind t) := by
  unfold punctKind
  infer_instance

/-- Invariants of one emitted list entry `some t` relative to the entries
`rest` emitted after it: the kind is one the scanner constructs; a
punctuation token records the zero-width span at the character it was read
from, with the character as its body; a member-access token is immediately
followed by the identifier-scan token emitted with it. -/
def goodHead (buf : List Char) (t : Token) (rest : List (Option Token)) : Prop :=
  constructedKind t.ty ∧
  (punctKind t.ty →
    t.span.stop = t.span.start ∧ ∃ c, t.body = [c] ∧ buf.get? t.span.start = some c) ∧
  (t.ty = TokenType.MemberAccess →
    ∃ u, rest.head? = some (some u) ∧ (u.ty = TokenType.Ident ∨ u.ty = TokenType.ReservedKeyword))

/-- Every entry of the emitted list is `some`, and satisfies `goodHead`
relative to the entries after it. -/
def goodList (buf : List Char) : List (Option Token) → Prop
  | [] => True
  | none :: _ => False
  | some t :: rest => goodHead buf t rest ∧ goodList buf rest

/-- An access token and its following identifier are emitted as an adjacent
pair: every `MemberAccess` entry is immediately followed by an
identifier-scan entry (`Ident` or `ReservedKeyword`). -/
def accessPaired : List (Option Token) → Prop
  | [] => True
  | ot :: rest =>
    ((∃ t, ot = some t ∧ t.ty = TokenType.MemberAccess) →
      ∃ u, rest.head? = some (some u) ∧
        (u.ty = TokenType.Ident ∨ u.ty = TokenType.ReservedKeyword)) ∧
    accessPaired rest

theorem lexLoop_past (buf : List Char) (fuel pos : Nat) (h : buf.length ≤ pos) :
    lexLoop buf fuel pos = .ok [] := by
  cases fuel with
  | zero => rfl
  | succ fuel =>
    simp only [lexLoop]
    rw [List.get?_eq_none.mpr h]

theorem byteSliceGo_ascii :
    ∀ (cs : List Char) (a b : Nat), (∀ c ∈ cs, Char.utf8Size c = 1) → a ≤ b →
      byteSliceGo cs a b =
        if b ≤ cs.length then some ((cs.drop a).take (b - a)) else none := by
  intro cs
  induction cs with
  | nil =>
    intro a b _ hab
    match a, b with
    | 0, 0 => simp [byteSliceGo]
    | 0, b + 1 => simp [byteSliceGo]
    | a + 1, b =>
      have he : byteSliceGo [] (a + 1) b = none := rfl
      rw [he]
      simp only [List.length_nil]
      rw [if_neg (by omega)]
  | cons c rest ih =>
    intro a b h hab
    have h1 : Char.utf8Size c = 1 := h c (by simp)
    have hrest : ∀ d ∈ rest, Char.utf8Size d = 1 := fun d hd => h d (by simp [hd])
    match a, b with
    | 0, 0 => simp [byteSliceGo]
    | 0, b + 1 =>
      rw [byteSliceGo, h1, if_pos (by omega), ih 0 (b + 1 - 1) hrest (by omega)]
      simp only [Nat.add_sub_cancel]
      by_cases hb : b ≤ rest.length
      · rw [if_pos hb, if_pos (by simp; omega)]
        simp [List.take_succ_cons]
      · rw [if_neg hb, if_neg (by simp; omega)]
        simp
    | a + 1, b =>
      rw [byteSliceGo, h1, if_pos (by omega), ih (a + 1 - 1) (b - 1) hrest (by omega)]
      simp only [Nat.add_sub_cancel]
      by_cases hb : b - 1 ≤ rest.length
      · rw [if_pos hb, if_pos (by simp; omega)]
        congr 1
        simp only [List.drop_succ_cons]
        congr 1
        omega
      · rw [if_neg hb, if_neg (by simp; omega)]

/-- C5 (corrected, counterexample): the claim asserts character-offset
semantics for `Span.slice_and_dice`, but the source slices by UTF-8 byte
offset. On the one-character string containing code point 233 (a two-byte
character) the span `[0, 1)` is a character-semantics slice returning that
character, while the source's byte slicing fails the char-boundary check. -/
theorem c5_counterexample :
    Span.slice_and_dice ⟨0, 1⟩ [Char.ofNat 233] = none ∧
      extract_char_semantics ⟨0, 1⟩ [Char.ofNat 233] = some [Char.ofNat 233] := by
  constructor <;> rfl

/-- C5 (amended): `Span.slice_and_dice` extracts by byte offset into the
UTF-8 encoding; on strings whose characters are all single-byte (in
particular all ASCII strings) this coincides exactly with the claimed
character-offset extraction `text[start:end]`, including the bounds-error
(not clamping) behavior on out-of-range spans. -/
theorem c5_amended_theorem (s : Span) (text : List Char)
    (h : ∀ c ∈ text, Char.utf8Size c = 1) :
    Span.slice_and_dice s text = extract_char_semantics s text := by
  unfold Span.slice_and_dice extract_char_semantics
  by_cases hse : s.start ≤ s.stop
  · rw [if_pos hse, byteSliceGo_ascii text s.start s.stop h hse]
    by_cases hb : s.stop ≤ text.length
    · rw [if_pos hb, if_pos ⟨hse, hb⟩]
    · rw [if_neg hb, if_neg (by tauto)]
  · rw [if_neg hse, if_neg (by tauto)]

/-- C5 witness: on the all-ASCII string `abc` the byte slice and the
character-offset slice of the span `[1, 3)` agree. -/
theorem c5_amended_witness :
    Span.slice_and_dice ⟨1, 3⟩ ['a', 'b', 'c'] = extract_char_semantics ⟨1, 3⟩ ['a', 'b', 'c'] :=
  c5_amended_theorem ⟨1, 3⟩ ['a', 'b', 'c'] (by decide)

/-- C6 (confirmed): for every span with `start <= end`, `perfect()` holds,
the length is `end - start`, and `is_empty()` holds exactly for zero-width
spans (`start = end`), not for one-character spans. -/
theorem c6_span_queries (s : Span) (h : s.start ≤ s.stop) :
    s.perfect = true ∧ s.len = s.stop - s.start ∧ (s.is_empty = true ↔ s.start = s.stop) := by
  refine ⟨?_, rfl, ?_⟩
  · simp [Span.perfect, h]
  · simp only [Span.is_empty, Span.len, beq_iff_eq]
    omega

/-- C6 witness: the span `[2, 5)` is perfect, has length 3, and is not empty
(while `2 = 5` is false). -/
theorem c6_span_queries_witness :
    Span.perfect ⟨2, 5⟩ = true ∧ Span.len ⟨2, 5⟩ = 5 - 2 ∧
      (Span.is_empty ⟨2, 5⟩ = true ↔ 2 = 5) :=
  c6_span_queries ⟨2, 5⟩ (by decide)

/-- C8 (confirmed): scanning a lone `:` with nothing after it is the fatal
`MissingSecondColon` failure (the `digest_access` lookahead finds no second
colon), and no token list is produced. -/
theorem c8_lone_colon : lexeme [':'] = .error .missingSecondColon := rfl

theorem reservedOrIdent_cases (l : List Char) :
    reservedOrIdent l = TokenType.Ident ∨ reservedOrIdent l = TokenType.ReservedKeyword := by
  unfold reservedOrIdent
  split
  · exact Or.inr rfl
  · exact Or.inl rfl

theorem digestIdentGo_pos : ∀ (cs : List Char) (p : Nat) (acc : List Char),
    p ≤ (digestIdentGo cs p acc).2 := by
  intro cs
  induction cs with
  | nil => intro p acc; exact Nat.le_refl p
  | cons c rest ih =>
    intro p acc
    unfold digestIdentGo
    split
    · exact Nat.le_trans (Nat.le_succ p) (ih (p + 1) (acc ++ [c]))
    · exact Nat.le_refl p

theorem digest_ident_pos (buf : List Char) (pos : Nat) : pos ≤ (digest_ident buf pos).2 :=
  digestIdentGo_pos (buf.drop pos) pos []

theorem digest_ident_shape (buf : List Char) (pos : Nat) :
    ∃ t, (digest_ident buf pos).1 = some t ∧
      (t.ty = TokenType.Ident ∨ t.ty = TokenType.ReservedKeyword) :=
  ⟨_, rfl, reservedOrIdent_cases _⟩

theorem digestLiteralGo_ok (start : Nat) :
    ∀ (cs : List Char) (p : Nat) (acc : List Char) (escaped : Bool) (t : Option Token) (q : Nat),
      digestLiteralGo start cs p acc escaped = .ok (t, q) →
      (∃ tok, t = some tok ∧ tok.ty = TokenType.String) ∧ p ≤ q := by
  intro cs
  induction cs with
  | nil => intro p acc escaped t q h; exact absurd h (by simp [digestLiteralGo])
  | cons c rest ih =>
    intro p acc escaped t q h
    unfold digestLiteralGo at h
    split at h
    · rw [Except.ok.injEq, Prod.mk.injEq] at h
      exact ⟨⟨_, h.1.symm, rfl⟩, by omega⟩
    · split at h
      · have := ih (p + 1) acc true t q h
        exact ⟨this.1, by omega⟩
      · match escaped with
        | true =>
          have := ih (p + 1) _ false t q h
          exact ⟨this.1, by omega⟩
        | false =>
          have := ih (p + 1) _ false t q h
          exact ⟨this.1, by omega⟩

theorem digest_literal_ok (buf : List Char) (pos : Nat) (t : Option Token) (q : Nat)
    (h : digest_literal buf pos = .ok (t, q)) :
    (∃ tok, t = some tok ∧ tok.ty = TokenType.String) ∧ pos ≤ q := by
  have := digestLiteralGo_ok pos (buf.drop (pos + 1)) (pos + 1) ['"'] false t q h
  exact ⟨this.1, by omega⟩

theorem digestNumberGo_shape (start : Nat) :
    ∀ (cs : List Char) (p : Nat) (acc : List Char) (t : Option Token) (q : Nat),
      digestNumberGo start cs p acc = .ok (t, q) →
      (∃ tok, t = some tok ∧ tok.ty = TokenType.Number) ∧ p ≤ q := by
  intro cs
  induction cs with
  | nil =>
    intro p acc t q h
    rw [digestNumberGo, Except.ok.injEq, Prod.mk.injEq] at h
    exact ⟨⟨_, h.1.symm, rfl⟩, by omega⟩
  | cons c rest ih =>
    intro p acc t q h
    unfold digestNumberGo at h
    split at h
    · have := ih (p + 1) (acc ++ [c]) t q h
      exact ⟨this.1, by omega⟩
    · exact absurd h (by simp)

theorem digest_number_shape (buf : List Char) (pos : Nat) (t : Option Token) (q : Nat)
    (h : digest_number buf pos = .ok (t, q)) :
    (∃ tok, t = some tok ∧ tok.ty = TokenType.Number) ∧ pos ≤ q :=
  digestNumberGo_shape pos (buf.drop pos) pos [] t q h

theorem digest_access_shape (buf : List Char) (pos : Nat) (a : Option Token) (q : Nat)
    (h : digest_access buf pos = .ok (a, q)) :
    pos ≤ q ∧ (a = none ∨ ∃ tok, a = some tok ∧ tok.ty = TokenType.MemberAccess) := by
  unfold digest_access at h
  split at h
  · split at h
    · split at h
      · split at h
        · rw [Except.ok.injEq, Prod.mk.injEq] at h
          exact ⟨by omega, Or.inr ⟨_, h.1.symm, rfl⟩⟩
        · rw [Except.ok.injEq, Prod.mk.injEq] at h
          exact ⟨by omega, Or.inl h.1.symm⟩
      · rw [Except.ok.injEq, Prod.mk.injEq] at h
        exact ⟨by omega, Or.inl h.1.symm⟩
    · exact absurd h (by simp)
  · exact absurd h (by simp)

theorem digestCommentGo_pos : ∀ (cs : List Char) (p : Nat), p ≤ digestCommentGo cs p := by
  intro cs
  induction cs with
  | nil => intro p; exact Nat.le_refl p
  | cons c rest ih =>
    intro p
    unfold digestCommentGo
    split
    · exact Nat.le_refl p
    · exact Nat.le_trans (Nat.le_succ p) (ih (p + 1))

theorem digest_comment_pos (buf : List Char) (pos : Nat) : pos ≤ digest_comment buf pos :=
  digestCommentGo_pos (buf.drop pos) pos

theorem goodHead_ident (buf : List Char) (t : Token) (rest : List (Option Token))
    (h : t.ty = TokenType.Ident ∨ t.ty = TokenType.ReservedKeyword) : goodHead buf t rest := by
  refine ⟨?_, ?_, ?_⟩
  · rcases h with h | h
    · exact Or.inl h
    · exact Or.inr (Or.inl h)
  · intro hp
    rcases h with h | h <;> rw [h] at hp <;> exact absurd hp (by decide)
  · intro hm
    rcases h with h | h <;> rw [h] at hm <;> exact absurd hm (by decide)

theorem goodHead_simple (buf : List Char) (t : Token) (rest : List (Option Token))
    (hc : constructedKind t.ty) (hnp : ¬ punctKind t.ty) (hnm : t.ty ≠ TokenType.MemberAccess) :
    goodHead buf t rest :=
  ⟨hc, fun hp => absurd hp hnp, fun hm => absurd hm hnm⟩

set_option maxHeartbeats 1000000 in
theorem lexLoop_good (buf : List Char) :
    ∀ (fuel pos : Nat) (toks : List (Option Token)),
      lexLoop buf fuel pos = .ok toks → goodList buf toks := by
  intro fuel
  induction fuel with
  | zero =>
    intro pos toks h
    rw [show lexLoop buf 0 pos = .ok [] from rfl, Except.ok.injEq] at h
    rw [← h]
    trivial
  | succ fuel ih =>
    intro pos toks h
    rw [lexLoop] at h
    cases hch : buf.get? pos with
    | none =>
      rw [hch] at h
      replace h : (Except.ok [] : Except LexError (List (Option Token))) = Except.ok toks := h
      rw [Except.ok.injEq] at h
      rw [← h]
      trivial
    | some ch =>
      rw [hch] at h
      replace h : lexDispatch buf pos ch (lexLoop buf fuel) = Except.ok toks := h
      rw [lexDispatch] at h
      by_cases hws : rustIsWhitespace ch = true
      · rw [if_pos hws] at h
        exact ih _ _ h
      · rw [if_neg hws] at h
        by_cases hid : isAsciiLetter ch = true ∨ ch = '_'
        · -- identifier dispatch
          rw [if_pos hid] at h
          split at h
          · exact Except.noConfusion h
          · rename_i rest hrec
            rw [Except.ok.injEq] at h
            rw [← h]
            obtain ⟨t, ht, hty⟩ := digest_ident_shape buf pos
            rw [ht]
            exact ⟨goodHead_ident buf t rest hty, ih _ _ hrec⟩
        · rw [if_neg hid] at h
          by_cases hq : ch = '"'
          · -- string literal dispatch
            rw [if_pos hq] at h
            split at h
            · exact Except.noConfusion h
            · rename_i literalSub p hlit
              split at h
              · exact Except.noConfusion h
              · rename_i rest hrec
                rw [Except.ok.injEq] at h
                rw [← h]
                obtain ⟨⟨tok, rfl, hty⟩, _⟩ := digest_literal_ok buf pos literalSub p hlit
                refine ⟨goodHead_simple buf tok rest ?_ ?_ ?_, ih _ _ hrec⟩
                · rw [hty]; decide
                · rw [hty]; decide
                · rw [hty]; decide
          · rw [if_neg hq] at h
            by_cases hnum : isNumeric ch = true
            · -- number dispatch
              rw [if_pos hnum] at h
              split at h
              · exact Except.noConfusion h
              · rename_i number p hnumeq
                split at h
                · exact Except.noConfusion h
                · split at h
                  · exact Except.noConfusion h
                  · rename_i rest hrec
                    rw [Except.ok.injEq] at h
                    rw [← h]
                    obtain ⟨⟨tok, rfl, hty⟩, _⟩ := digest_number_shape buf pos number p hnumeq
                    refine ⟨goodHead_simple buf tok rest ?_ ?_ ?_, ih _ _ hrec⟩
                    · rw [hty]; decide
                    · rw [hty]; decide
                    · rw [hty]; decide
            · rw [if_neg hnum] at h
              by_cases hop : ch = '('
              · -- open paren
                rw [if_pos hop] at h
                split at h
                · exact Except.noConfusion h
                · rename_i rest hrec
                  rw [Except.ok.injEq] at h
                  rw [← h]
                  exact ⟨⟨(by decide : constructedKind TokenType.OpenParen), fun _ => ⟨rfl, ch, rfl, hch⟩,
                    fun hm => absurd hm (by decide : ¬ TokenType.OpenParen = TokenType.MemberAccess)⟩, ih _ _ hrec⟩
              · rw [if_neg hop] at h
                by_cases hcp : ch = ')'
                · -- close paren
                  rw [if_pos hcp] at h
                  split at h
                  · exact Except.noConfusion h
                  · rename_i rest hrec
                    rw [Except.ok.injEq] at h
                    rw [← h]
                    exact ⟨⟨(by decide : constructedKind TokenType.CloseParen), fun _ => ⟨rfl, ch, rfl, hch⟩,
                      fun hm => absurd hm (by decide : ¬ TokenType.CloseParen = TokenType.MemberAccess)⟩, ih _ _ hrec⟩
                · rw [if_neg hcp] at h
                  by_cases hob : ch = Char.ofNat 123
                  · -- open brace
                    rw [if_pos hob] at h
                    split at h
                    · exact Except.noConfusion h
                    · rename_i rest hrec
                      rw [Except.ok.injEq] at h
                      rw [← h]
                      exact ⟨⟨(by decide : constructedKind TokenType.OpenBrace), fun _ => ⟨rfl, ch, rfl, hch⟩,
                        fun hm => absurd hm (by decide : ¬ TokenType.OpenBrace = TokenType.MemberAccess)⟩, ih _ _ hrec⟩
                  · rw [if_neg hob] at h
                    by_cases hcb : ch = Char.ofNat 125
                    · -- close brace
                      rw [if_pos hcb] at h
                      split at h
                      · exact Except.noConfusion h
                      · rename_i rest hrec
                        rw [Except.ok.injEq] at h
                        rw [← h]
                        exact ⟨⟨(by decide : constructedKind TokenType.CloseBrace), fun _ => ⟨rfl, ch, rfl, hch⟩,
                          fun hm => absurd hm (by decide : ¬ TokenType.CloseBrace = TokenType.MemberAccess)⟩, ih _ _ hrec⟩
                    · rw [if_neg hcb] at h
                      by_cases hcol : ch = ':'
                      · -- member access dispatch
                        rw [if_pos hcol] at h
                        split at h
                        · exact Except.noConfusion h
                        · rename_i isAccess p1 hacc
                          obtain ⟨hp1, hdisj⟩ := digest_access_shape buf pos isAccess p1 hacc
                          split at h
                          · rcases hdisj with rfl | ⟨tok, rfl, hty⟩
                            · rename_i hno
                              simp at hno
                            · split at h
                              · exact Except.noConfusion h
                              · rename_i rest hrec
                                rw [Except.ok.injEq] at h
                                rw [← h]
                                obtain ⟨u, hu, huty⟩ := digest_ident_shape buf p1
                                rw [hu]
                                refine ⟨⟨?_, ?_, ?_⟩, goodHead_ident buf u rest huty,
                                  ih _ _ hrec⟩
                                · rw [hty]; decide
                                · intro hp; rw [hty] at hp; exact absurd hp (by decide)
                                · intro _; exact ⟨u, by rw [List.head?_cons], huty⟩
                          · exact ih _ _ h
                      · rw [if_neg hcol] at h
                        by_cases hsemi : ch = ';'
                        · -- comment: nothing emitted
                          rw [if_pos hsemi] at h
                          exact ih _ _ h
                        · rw [if_neg hsemi] at h
                          exact Except.noConfusion h

theorem lexeme_good (buf : List Char) (toks : List (Option Token))
    (h : lexeme buf = .ok toks) : goodList buf toks :=
  lexLoop_good buf _ 0 toks h

theorem goodList_mem (buf : List Char) :
    ∀ (toks : List (Option Token)), goodList buf toks →
      ∀ ot ∈ toks, ∃ t, ot = some t ∧ constructedKind t.ty ∧
        (punctKind t.ty →
          t.span.stop = t.span.start ∧ ∃ c, t.body = [c] ∧ buf.get? t.span.start = some c) := by
  intro toks
  induction toks with
  | nil => intro _ ot hot; exact absurd hot (List.not_mem_nil ot)
  | cons head rest ih =>
    intro hg ot hot
    match head with
    | none => exact absurd hg (by simp [goodList])
    | some t =>
      rw [show goodList buf (some t :: rest) = (goodHead buf t rest ∧ goodList buf rest)
        from rfl] at hg
      rcases List.mem_cons.mp hot with rfl | hmem
      · exact ⟨t, rfl, hg.1.1, hg.1.2.1⟩
      · exact ih hg.2 ot hmem

theorem goodList_accessPaired (buf : List Char) :
    ∀ (toks : List (Option Token)), goodList buf toks → accessPaired toks := by
  intro toks
  induction toks with
  | nil => intro _; trivial
  | cons head rest ih =>
    intro hg
    match head with
    | none => exact absurd hg (by simp [goodList])
    | some t =>
      rw [show goodList buf (some t :: rest) = (goodHead buf t rest ∧ goodList buf rest)
        from rfl] at hg
      refine ⟨?_, ih hg.2⟩
      rintro ⟨tok, htok, hty⟩
      rw [Option.some.injEq] at htok
      rw [← htok] at hty
      exact hg.1.2.2 hty

/-- C9 (confirmed): although `Lexer::lexeme` returns `Vec<Option<Token>>`,
every entry of a successfully returned token list is `Some`; no `None` is
ever pushed. -/
theorem c9_no_none_entries : ∀ (buf : List Char) (toks : List (Option Token)),
    lexeme buf = .ok toks → ∀ ot ∈ toks, ot.isSome = true := by
  intro buf toks h ot hot
  obtain ⟨t, rfl, -, -⟩ := goodList_mem buf toks (lexeme_good buf toks h) ot hot
  rfl

/-- C9 witness: scanning `new` succeeds and its single entry is `Some`. -/
theorem c9_no_none_entries_witness :
    (some ⟨TokenType.ReservedKeyword, ['n', 'e', 'w'], ⟨0, 3⟩⟩ : Option Token).isSome = true :=
  c9_no_none_entries ['n', 'e', 'w']
    [some ⟨TokenType.ReservedKeyword, ['n', 'e', 'w'], ⟨0, 3⟩⟩] rfl
    (some ⟨TokenType.ReservedKeyword, ['n', 'e', 'w'], ⟨0, 3⟩⟩) (by decide)

/-- C7 (confirmed): a successful scan never emits a token of any of the
twelve catalog kinds `Colon, SemiColon, Comma, Dot, Equal, Greater, Less,
Plus, Minus, Multiply, Divide, Modulo`; they exist in the `Type` catalog but
the scanning algorithm never constructs them. -/
theorem c7_unconstructed_kinds : ∀ (buf : List Char) (toks : List (Option Token)),
    lexeme buf = .ok toks → ∀ ot ∈ toks, ∀ t, ot = some t →
      t.ty ≠ TokenType.Colon ∧ t.ty ≠ TokenType.SemiColon ∧ t.ty ≠ TokenType.Comma ∧
      t.ty ≠ TokenType.Dot ∧ t.ty ≠ TokenType.Equal ∧ t.ty ≠ TokenType.Greater ∧
      t.ty ≠ TokenType.Less ∧ t.ty ≠ TokenType.Plus ∧ t.ty ≠ TokenType.Minus ∧
      t.ty ≠ TokenType.Multiply ∧ t.ty ≠ TokenType.Divide ∧ t.ty ≠ TokenType.Modulo := by
  intro buf toks h ot hot t hts
  obtain ⟨u, rfl, hc, -⟩ := goodList_mem buf toks (lexeme_good buf toks h) ot hot
  rw [Option.some.injEq] at hts
  rw [← hts]
  rcases hc with hk | hk | hk | hk | hk | hk | hk | hk | hk <;> rw [hk] <;> decide

/-- C7 witness: the `ReservedKeyword` token scanned from `new` has none of
the twelve unconstructed kinds. -/
theorem c7_unconstructed_kinds_witness :
    (⟨TokenType.ReservedKeyword, ['n', 'e', 'w'], ⟨0, 3⟩⟩ : Token).ty ≠ TokenType.Colon ∧
    (⟨TokenType.ReservedKeyword, ['n', 'e', 'w'], ⟨0, 3⟩⟩ : Token).ty ≠ TokenType.SemiColon ∧
    (⟨TokenType.ReservedKeyword, ['n', 'e', 'w'], ⟨0, 3⟩⟩ : Token).ty ≠ TokenType.Comma ∧
    (⟨TokenType.ReservedKeyword, ['n', 'e', 'w'], ⟨0, 3⟩⟩ : Token).ty ≠ TokenType.Dot ∧
    (⟨TokenType.ReservedKeyword, ['n', 'e', 'w'], ⟨0, 3⟩⟩ : Token).ty ≠ TokenType.Equal ∧
    (⟨TokenType.ReservedKeyword, ['n', 'e', 'w'], ⟨0, 3⟩⟩ : Token).ty ≠ TokenType.Greater ∧
    (⟨TokenType.ReservedKeyword, ['n', 'e', 'w'], ⟨0, 3⟩⟩ : Token).ty ≠ TokenType.Less ∧
    (⟨TokenType.ReservedKeyword, ['n', 'e', 'w'], ⟨0, 3⟩⟩ : Token).ty ≠ TokenType.Plus ∧
    (⟨TokenType.ReservedKeyword, ['n', 'e', 'w'], ⟨0, 3⟩⟩ : Token).ty ≠ TokenType.Minus ∧
    (⟨TokenType.ReservedKeyword, ['n', 'e', 'w'], ⟨0, 3⟩⟩ : Token).ty ≠ TokenType.Multiply ∧
    (⟨TokenType.ReservedKeyword, ['n', 'e', 'w'], ⟨0, 3⟩⟩ : Token).ty ≠ TokenType.Divide ∧
    (⟨TokenType.ReservedKeyword, ['n', 'e', 'w'], ⟨0, 3⟩⟩ : Token).ty ≠ TokenType.Modulo :=
  c7_unconstructed_kinds ['n', 'e', 'w']
    [some ⟨TokenType.ReservedKeyword, ['n', 'e', 'w'], ⟨0, 3⟩⟩] rfl
    (some ⟨TokenType.ReservedKeyword, ['n', 'e', 'w'], ⟨0, 3⟩⟩) (by decide) _ rfl

/-- C1 (corrected, counterexample): the claim says a token emitted for `(`
at cursor position `p` spans `[p, p + 1)`; but scanning `(` emits the token
with span `[0, 0)` — the source constructs `Span::new(self.pos, self.pos)`,
so the recorded end is `p`, not `p + 1`. -/
theorem c1_counterexample :
    lexeme ['('] = .ok [some ⟨TokenType.OpenParen, ['('], ⟨0, 0⟩⟩] ∧
      (Span.mk 0 0).stop ≠ 0 + 1 := ⟨rfl, by decide⟩

/-- C1 (amended): each token emitted for one of `(`, `)`, the open brace or
the close brace read at cursor position `p` records the zero-width span with
`start = end = p` (both offsets equal to the character's position, which
still identifies the punctuation's location), and its body is exactly that
one character. -/
theorem c1_amended_punct_span : ∀ (buf : List Char) (toks : List (Option Token)),
    lexeme buf = .ok toks → ∀ ot ∈ toks, ∀ t, ot = some t → punctKind t.ty →
      t.span.stop = t.span.start ∧ ∃ c, t.body = [c] ∧ buf.get? t.span.start = some c := by
  intro buf toks h ot hot t hts hp
  obtain ⟨u, rfl, -, hpu⟩ := goodList_mem buf toks (lexeme_good buf toks h) ot hot
  rw [Option.some.injEq] at hts
  rw [← hts]
  exact hpu (by rw [hts]; exact hp)

/-- C1 witness: the token scanned from `(` has the zero-width span `[0, 0)`
located at the parenthesis. -/
theorem c1_amended_punct_span_witness :
    (⟨TokenType.OpenParen, ['('], ⟨0, 0⟩⟩ : Token).span.stop =
      (⟨TokenType.OpenParen, ['('], ⟨0, 0⟩⟩ : Token).span.start ∧
    ∃ c, (⟨TokenType.OpenParen, ['('], ⟨0, 0⟩⟩ : Token).body = [c] ∧
      ['('].get? (⟨TokenType.OpenParen, ['('], ⟨0, 0⟩⟩ : Token).span.start = some c :=
  c1_amended_punct_span ['('] [some ⟨TokenType.OpenParen, ['('], ⟨0, 0⟩⟩] rfl
    (some ⟨TokenType.OpenParen, ['('], ⟨0, 0⟩⟩) (by decide) _ rfl (by decide)

/-- C4 (confirmed): scanning `::foo` yields exactly the pair
`MemberAccess ::` (spanning both colons) then `Ident foo`; and in every
successful scan a `MemberAccess` entry is immediately followed by the
identifier-scan entry emitted with it — never emitted independently. -/
theorem c4_member_access_pair :
    lexeme [':', ':', 'f', 'o', 'o'] =
      .ok [some ⟨TokenType.MemberAccess, [':', ':'], ⟨0, 2⟩⟩,
        some ⟨TokenType.Ident, ['f', 'o', 'o'], ⟨2, 5⟩⟩] ∧
    ∀ (buf : List Char) (toks : List (Option Token)),
      lexeme buf = .ok toks → accessPaired toks := by
  refine ⟨rfl, ?_⟩
  intro buf toks h
  exact goodList_accessPaired buf toks (lexeme_good buf toks h)

/-- C4 witness: the pair scanned from `::foo` satisfies the adjacency
invariant. -/
theorem c4_member_access_pair_witness :
    accessPaired [some ⟨TokenType.MemberAccess, [':', ':'], ⟨0, 2⟩⟩,
      some ⟨TokenType.Ident, ['f', 'o', 'o'], ⟨2, 5⟩⟩] :=
  c4_member_access_pair.2 [':', ':', 'f', 'o', 'o']
    [some ⟨TokenType.MemberAccess, [':', ':'], ⟨0, 2⟩⟩,
      some ⟨TokenType.Ident, ['f', 'o', 'o'], ⟨2, 5⟩⟩] rfl

theorem digestNumberGo_ok (start : Nat) :
    ∀ (cs : List Char) (p : Nat) (acc : List Char),
      (∀ d ∈ cs, isNumberChar d = true) →
      digestNumberGo start cs p acc =
        .ok (some ⟨TokenType.Number, acc ++ cs, ⟨start, p + cs.length⟩⟩, p + cs.length) := by
  intro cs
  induction cs with
  | nil => intro p acc _; simp [digestNumberGo]
  | cons c rest ih =>
    intro p acc h
    rw [digestNumberGo, if_pos (h c (by simp)), ih (p + 1) (acc ++ [c])
      (fun d hd => h d (by simp [hd]))]
    rw [List.append_assoc, List.singleton_append, List.length_cons]
    have harith : p + 1 + rest.length = p + (rest.length + 1) := by omega
    rw [harith]

theorem digestNumberGo_err (start : Nat) :
    ∀ (cs : List Char) (p : Nat) (acc : List Char),
      (∃ d ∈ cs, ¬ isNumberChar d = true) →
      digestNumberGo start cs p acc = .error .invalidNumberCharacter := by
  intro cs
  induction cs with
  | nil =>
    rintro p acc ⟨d, hd, -⟩
    exact absurd hd (List.not_mem_nil d)
  | cons c rest ih =>
    rintro p acc ⟨d, hd, hbad⟩
    by_cases hc : isNumberChar c = true
    · rw [digestNumberGo, if_pos hc]
      rcases List.mem_cons.mp hd with rfl | hmem
      · exact absurd hc hbad
      · exact ih (p + 1) (acc ++ [c]) ⟨d, hmem, hbad⟩
    · rw [digestNumberGo, if_neg hc]

theorem rustIsWhitespace_of_isNumeric (c : Char) (h : isNumeric c = true) :
    ¬ rustIsWhitespace c = true := by
  rw [isNumeric, decide_eq_true_eq] at h
  rw [rustIsWhitespace, decide_eq_true_eq]
  intro hmem
  simp only [List.mem_cons, List.not_mem_nil, or_false] at hmem
  rcases hmem with h1 | h1 | h1 | h1 | h1 | h1 | h1 | h1 | h1 | h1 | h1 | h1 | h1 | h1 | h1 |
    h1 | h1 | h1 | h1 | h1 | h1 | h1 | h1 | h1 | h1 <;> omega

theorem not_letter_of_isNumeric (c : Char) (h : isNumeric c = true) :
    ¬ (isAsciiLetter c = true ∨ c = '_') := by
  rw [isNumeric, decide_eq_true_eq] at h
  rintro (hL | rfl)
  · rw [isAsciiLetter, decide_eq_true_eq] at hL
    rcases hL with ⟨h1, h2⟩ | ⟨h1, h2⟩ <;> omega
  · exact absurd h (by decide)

theorem not_quote_of_isNumeric (c : Char) (h : isNumeric c = true) : ¬ c = '"' := by
  rintro rfl
  exact absurd h (by decide)

/-- C2 (confirmed): whenever the scanning loop dispatches on a decimal digit
at position `pos`, the scan fails with `InvalidNumberCharacter` exactly when
some character outside `{0-9, ., _}` occurs anywhere between that digit and
the end of the input; and when no such character occurs, the whole remaining
run is emitted as a single `Number` token whose text is that run (the number
scanner only stops at the end of the buffer). -/
theorem c2_number_scan (buf : List Char) (fuel pos : Nat) (c : Char)
    (hc : buf.get? pos = some c) (hd : isNumeric c = true) :
    (lexLoop buf (fuel + 1) pos = .error .invalidNumberCharacter ↔
      ∃ d ∈ buf.drop pos, isNumberChar d = false) ∧
    ((∀ d ∈ buf.drop pos, isNumberChar d = true) →
      lexLoop buf (fuel + 1) pos =
        .ok [some ⟨TokenType.Number, buf.drop pos, ⟨pos, buf.length⟩⟩]) := by
  have hw := rustIsWhitespace_of_isNumeric c hd
  have hl := not_letter_of_isNumeric c hd
  have hq := not_quote_of_isNumeric c hd
  have hlt : pos < buf.length := by
    by_contra hge
    rw [List.get?_eq_none.mpr (by omega)] at hc
    exact Option.noConfusion hc
  have hunfold : lexLoop buf (fuel + 1) pos = (match digest_number buf pos with
      | .error e => .error e
      | .ok (number, p) =>
        if number.isNone = true then .error .invalidNumberCharacter
        else match lexLoop buf fuel (p + 1) with
          | .error e => .error e
          | .ok rest => .ok (number :: rest)) := by
    conv_lhs => rw [lexLoop, hc]
    show lexDispatch buf pos c (lexLoop buf fuel) = _
    rw [lexDispatch, if_neg hw, if_neg hl, if_neg hq, if_pos hd]
  by_cases hall : ∀ d ∈ buf.drop pos, isNumberChar d = true
  · have hnum : digest_number buf pos =
        .ok (some ⟨TokenType.Number, buf.drop pos, ⟨pos, buf.length⟩⟩, buf.length) := by
      rw [digest_number, digestNumberGo_ok pos (buf.drop pos) pos [] hall]
      rw [List.nil_append, List.length_drop, Nat.add_sub_cancel' (Nat.le_of_lt hlt)]
    have hres : lexLoop buf (fuel + 1) pos =
        .ok [some ⟨TokenType.Number, buf.drop pos, ⟨pos, buf.length⟩⟩] := by
      rw [hunfold, hnum]
      show (if (some (⟨TokenType.Number, buf.drop pos, ⟨pos, buf.length⟩⟩ : Token)).isNone = true
        then Except.error LexError.invalidNumberCharacter
        else match lexLoop buf fuel (buf.length + 1) with
          | .error e => .error e
          | .ok rest =>
            .ok (some ⟨TokenType.Number, buf.drop pos, ⟨pos, buf.length⟩⟩ :: rest)) = _
      rw [if_neg (by simp), lexLoop_past buf fuel (buf.length + 1) (by omega)]
    refine ⟨?_, fun _ => hres⟩
    rw [hres]
    constructor
    · intro hcontra
      exact Except.noConfusion hcontra
    · rintro ⟨d, hd1, hd2⟩
      rw [hall d hd1] at hd2
      exact Bool.noConfusion hd2
  · have hbad : ∃ d ∈ buf.drop pos, ¬ isNumberChar d = true := by
      push_neg at hall
      exact hall
    have herr : digest_number buf pos = .error .invalidNumberCharacter := by
      rw [digest_number]
      exact digestNumberGo_err pos (buf.drop pos) pos [] hbad
    have hres : lexLoop buf (fuel + 1) pos = .error .invalidNumberCharacter := by
      rw [hunfold, herr]
    refine ⟨?_, fun hall2 => absurd hall2 hall⟩
    rw [hres]
    constructor
    · intro _
      obtain ⟨d, hd1, hd2⟩ := hbad
      exact ⟨d, hd1, by rwa [Bool.not_eq_true] at hd2⟩
    · intro _
      rfl

/-- C2 witness: scanning `123.45` (end of input immediately after the run)
yields exactly one `Number` token with text `123.45` spanning the whole
input. -/
theorem c2_number_scan_witness :
    lexeme ['1', '2', '3', '.', '4', '5'] =
      .ok [some ⟨TokenType.Number,
        List.drop 0 ['1', '2', '3', '.', '4', '5'],
        ⟨0, List.length ['1', '2', '3', '.', '4', '5']⟩⟩] :=
  (c2_number_scan ['1', '2', '3', '.', '4', '5'] 6 0 '1' (by decide) (by decide)).2 (by decide)

theorem digestLiteralGo_plain (start : Nat) :
    ∀ (plainRun rest : List Char) (p : Nat) (acc : List Char),
      (∀ c ∈ plainRun, ¬ c = '"' ∧ ¬ c = '\\') →
      digestLiteralGo start (plainRun ++ rest) p acc false =
        digestLiteralGo start rest (p + plainRun.length) (acc ++ plainRun) false := by
  intro plainRun
  induction plainRun with
  | nil => intro rest p acc _; simp
  | cons c cs ih =>
    intro rest p acc h
    obtain ⟨hq, hb⟩ := h c (by simp)
    rw [List.cons_append, digestLiteralGo]
    rw [if_neg (by exact fun hand => hq hand.1), if_neg (by exact fun hand => hb hand.1)]
    rw [ih rest (p + 1) (acc ++ [c]) (fun d hd => h d (by simp [hd]))]
    rw [List.append_assoc, List.singleton_append, List.length_cons]
    have harith : p + 1 + cs.length = p + (cs.length + 1) := by omega
    rw [harith]

/-- C3 (confirmed): scanning a string literal whose interior is a plain run,
a backslash-n escape, and another plain run yields exactly one `String`
token whose body is the opening quote, the escape-decoded interior (with an
actual newline where the backslash-n stood, the backslash itself not
appended), and the closing quote, in that order. The 8-character source
`"ab\ncd"` of the claim is the instance `pre = ab`, `post = cd` (see the
witness). -/
theorem c3_string_escape (pre post : List Char)
    (hpre : ∀ c ∈ pre, ¬ c = '"' ∧ ¬ c = '\\')
    (hpost : ∀ c ∈ post, ¬ c = '"' ∧ ¬ c = '\\') :
    lexeme ('"' :: (pre ++ ('\\' :: 'n' :: (post ++ ['"'])))) =
      .ok [some ⟨TokenType.String, '"' :: (pre ++ ('\n' :: (post ++ ['"']))),
        ⟨0, pre.length + post.length + 4⟩⟩] := by
  have hlen : ('"' :: (pre ++ ('\\' :: 'n' :: (post ++ ['"'])))).length =
      pre.length + post.length + 4 := by
    simp only [List.length_cons, List.length_append, List.length_nil]
    omega
  have hgo : digestLiteralGo 0 (pre ++ ('\\' :: 'n' :: (post ++ ['"']))) 1 ['"'] false =
      .ok (some ⟨TokenType.String, '"' :: (pre ++ ('\n' :: (post ++ ['"']))),
        ⟨0, pre.length + post.length + 4⟩⟩, pre.length + post.length + 4) := by
    rw [digestLiteralGo_plain 0 pre ('\\' :: 'n' :: (post ++ ['"'])) 1 ['"'] hpre]
    rw [digestLiteralGo]
    rw [if_neg (by simp), if_pos ⟨rfl, rfl⟩]
    rw [digestLiteralGo]
    rw [if_neg (by simp), if_neg (by simp)]
    show digestLiteralGo 0 (post ++ ['"']) (1 + pre.length + 1 + 1)
        ((['"'] ++ pre) ++ ['\n']) false = _
    rw [digestLiteralGo_plain 0 post ['"'] (1 + pre.length + 1 + 1) ((['"'] ++ pre) ++ ['\n'])
      hpost]
    rw [digestLiteralGo]
    rw [if_pos ⟨rfl, rfl⟩]
    rw [Except.ok.injEq, Prod.mk.injEq, Option.some.injEq, Token.mk.injEq, Span.mk.injEq]
    refine ⟨⟨rfl, ?_, rfl, ?_⟩, ?_⟩
    · simp [List.append_assoc, List.singleton_append, List.cons_append]
    · omega
    · omega
  rw [lexeme, lexLoop]
  rw [show ('"' :: (pre ++ ('\\' :: 'n' :: (post ++ ['"'])))).get? 0 = some '"' from rfl]
  show lexDispatch ('"' :: (pre ++ ('\\' :: 'n' :: (post ++ ['"'])))) 0 '"'
      (lexLoop ('"' :: (pre ++ ('\\' :: 'n' :: (post ++ ['"']))))
        ('"' :: (pre ++ ('\\' :: 'n' :: (post ++ ['"'])))).length) = _
  rw [lexDispatch, if_neg (by decide), if_neg (by decide), if_pos rfl]
  have hlit : digest_literal ('"' :: (pre ++ ('\\' :: 'n' :: (post ++ ['"'])))) 0 =
      .ok (some ⟨TokenType.String, '"' :: (pre ++ ('\n' :: (post ++ ['"']))),
        ⟨0, pre.length + post.length + 4⟩⟩, pre.length + post.length + 4) := by
    rw [digest_literal]
    exact hgo
  rw [hlit]
  show (match lexLoop ('"' :: (pre ++ ('\\' :: 'n' :: (post ++ ['"']))))
      ('"' :: (pre ++ ('\\' :: 'n' :: (post ++ ['"'])))).length
      (pre.length + post.length + 4 + 1) with
    | Except.error e => Except.error e
    | Except.ok rest =>
      Except.ok (some (⟨TokenType.String, '"' :: (pre ++ ('\n' :: (post ++ ['"']))),
        ⟨0, pre.length + post.length + 4⟩⟩ : Token) :: rest)) = _
  rw [lexLoop_past _ _ _ (by rw [hlen]; omega)]

/-- C3 witness: the claim's 8-character source (quote, a, b, backslash, n,
c, d, quote) yields one `String` token whose body holds an actual newline
between `ab` and `cd`, bounded by the quote characters. -/
theorem c3_string_escape_witness :
    lexeme ['"', 'a', 'b', '\\', 'n', 'c', 'd', '"'] =
      .ok [some ⟨TokenType.String, ['"', 'a', 'b', '\n', 'c', 'd', '"'], ⟨0, 8⟩⟩] :=
  c3_string_escape ['a', 'b'] ['c', 'd'] (by decide) (by decide)

/-- C10 (confirmed): after a successfully terminated string literal the
character one past the closing quote is skipped without ever being
classified: scanning the 4-character input quote-a-quote-x succeeds with
exactly the one `String` token for EVERY fourth character `x` (even one that
would otherwise be a fatal unrecognized character), and in particular for
`x = b` the trailing `b` produces no token and no error. -/
theorem c10_skip_after_string :
    (∀ c : Char, lexeme ['"', 'a', '"', c] =
      .ok [some ⟨TokenType.String, ['"', 'a', '"'], ⟨0, 3⟩⟩]) ∧
    lexeme ['"', 'a', '"', 'b'] =
      .ok [some ⟨TokenType.String, ['"', 'a', '"'], ⟨0, 3⟩⟩] :=
  ⟨fun _ => rfl, rfl⟩

theorem lexDispatch_congr (buf : List Char) (pos : Nat) (ch : Char)
    (r1 r2 : Nat → Except LexError (List (Option Token)))
    (h : ∀ q, pos ≤ q → r1 (q + 1) = r2 (q + 1)) :
    lexDispatch buf pos ch r1 = lexDispatch buf pos ch r2 := by
  simp only [lexDispatch]
  by_cases hws : rustIsWhitespace ch = true
  · rw [if_pos hws, if_pos hws]
    exact h pos (Nat.le_refl pos)
  · rw [if_neg hws, if_neg hws]
    by_cases hid : isAsciiLetter ch = true ∨ ch = '_'
    · rw [if_pos hid, if_pos hid, h (digest_ident buf pos).2 (digest_ident_pos buf pos)]
    · rw [if_neg hid, if_neg hid]
      by_cases hq : ch = '"'
      · rw [if_pos hq, if_pos hq]
        cases hdl : digest_literal buf pos with
        | error e => rfl
        | ok tp =>
          obtain ⟨t, q⟩ := tp
          show (match r1 (q + 1) with
            | Except.error e => Except.error e
            | Except.ok rest => Except.ok (t :: rest)) = (match r2 (q + 1) with
            | Except.error e => Except.error e
            | Except.ok rest => Except.ok (t :: rest))
          rw [h q (digest_literal_ok buf pos t q hdl).2]
      · rw [if_neg hq, if_neg hq]
        by_cases hnum : isNumeric ch = true
        · rw [if_pos hnum, if_pos hnum]
          cases hdn : digest_number buf pos with
          | error e => rfl
          | ok tp =>
            obtain ⟨t, q⟩ := tp
            show (if t.isNone = true then Except.error LexError.invalidNumberCharacter
              else match r1 (q + 1) with
                | Except.error e => Except.error e
                | Except.ok rest => Except.ok (t :: rest)) =
              (if t.isNone = true then Except.error LexError.invalidNumberCharacter
              else match r2 (q + 1) with
                | Except.error e => Except.error e
                | Except.ok rest => Except.ok (t :: rest))
            rw [h q (digest_number_shape buf pos t q hdn).2]
        · rw [if_neg hnum, if_neg hnum]
          by_cases hop : ch = '('
          · rw [if_pos hop, if_pos hop, h pos (Nat.le_refl pos)]
          · rw [if_neg hop, if_neg hop]
            by_cases hcp : ch = ')'
            · rw [if_pos hcp, if_pos hcp, h pos (Nat.le_refl pos)]
            · rw [if_neg hcp, if_neg hcp]
              by_cases hob : ch = Char.ofNat 123
              · rw [if_pos hob, if_pos hob, h pos (Nat.le_refl pos)]
              · rw [if_neg hob, if_neg hob]
                by_cases hcb : ch = Char.ofNat 125
                · rw [if_pos hcb, if_pos hcb, h pos (Nat.le_refl pos)]
                · rw [if_neg hcb, if_neg hcb]
                  by_cases hcol : ch = ':'
                  · rw [if_pos hcol, if_pos hcol]
                    cases hda : digest_access buf pos with
                    | error e => rfl
                    | ok ap =>
                      obtain ⟨a, p1⟩ := ap
                      have hle : pos ≤ (digest_ident buf p1).2 :=
                        Nat.le_trans (digest_access_shape buf pos a p1 hda).1
                          (digest_ident_pos buf p1)
                      show (if a.isNone = false then
                          match r1 ((digest_ident buf p1).2 + 1) with
                          | Except.error e => Except.error e
                          | Except.ok rest => Except.ok (a :: (digest_ident buf p1).1 :: rest)
                        else r1 ((digest_ident buf p1).2 + 1)) =
                        (if a.isNone = false then
                          match r2 ((digest_ident buf p1).2 + 1) with
                          | Except.error e => Except.error e
                          | Except.ok rest => Except.ok (a :: (digest_ident buf p1).1 :: rest)
                        else r2 ((digest_ident buf p1).2 + 1))
                      rw [h (digest_ident buf p1).2 hle]
                  · rw [if_neg hcol, if_neg hcol]
                    by_cases hsemi : ch = ';'
                    · rw [if_pos hsemi, if_pos hsemi,
                        h (digest_comment buf pos) (digest_comment_pos buf pos)]
                    · rw [if_neg hsemi, if_neg hsemi]

/-- The fuel parameter of `lexLoop` is irrelevant once it is at least
`buf.length + 1 - pos` (the loop advances the reading position every
iteration); in particular the `buf.length + 1` budget of `lexeme` models the
unbounded source loop exactly. -/
theorem lexLoop_fuel_irrelevant (buf : List Char) :
    ∀ (f g pos : Nat), buf.length + 1 - pos ≤ f → buf.length + 1 - pos ≤ g →
      lexLoop buf f pos = lexLoop buf g pos := by
  intro f
  induction f with
  | zero =>
    intro g pos hf hg
    rw [lexLoop_past buf 0 pos (by omega), lexLoop_past buf g pos (by omega)]
  | succ f ih =>
    intro g pos hf hg
    by_cases hpos : buf.length ≤ pos
    · rw [lexLoop_past buf _ pos hpos, lexLoop_past buf g pos hpos]
    · push_neg at hpos
      obtain ⟨g', rfl⟩ : ∃ g'', g = g'' + 1 := by
        cases g with
        | zero => exact absurd hg (by omega)
        | succ g'' => exact ⟨g'', rfl⟩
      obtain ⟨ch, hch⟩ : ∃ ch, buf.get? pos = some ch := by
        cases hc : buf.get? pos with
        | none =>
          rw [List.get?_eq_none] at hc
          omega
        | some c => exact ⟨c, rfl⟩
      rw [lexLoop, lexLoop, hch]
      show lexDispatch buf pos ch (lexLoop buf f) = lexDispatch buf pos ch (lexLoop buf g')
      exact lexDispatch_congr buf pos ch (lexLoop buf f) (lexLoop buf g')
        (fun q hq => ih g' (q + 1) (by omega) (by omega))
